import Mathlib

/-! Shallow embedding of `src/analyzer.ts` (codespeed): the static rule scanner
`runStaticRules`, the range builder `buildRange`, the LLM augmentation pass
`runLlmPass` with `normalizeSeverity`, and the module-level configuration and
entry point `configureAnalyzer` / `analyzePython`.

Strings are modelled as `List Char`.  Each JavaScript regular expression used
by the analyzer is deterministic (at every choice point the relevant character
classes are pairwise disjoint, so greedy maximal-munch matching is the unique
match), and is embedded as a maximal-munch scanner over the character list.
Promises are modelled by their resolved values, and the network transport by a
function from the request that is actually sent to an abstract outcome. -/

/-- JavaScript `\s` (also the character class removed by `trimStart`):
ASCII white space, NBSP, BOM, the Unicode space separators and the
line/paragraph separators. -/
def isSpaceJS (c : Char) : Bool :=
  let n := c.toNat
  n = 32 || n = 9 || n = 10 || n = 11 || n = 12 || n = 13 ||
  n = 0xa0 || n = 0x1680 || (0x2000 ≤ n && n ≤ 0x200a) ||
  n = 0x2028 || n = 0x2029 || n = 0x202f || n = 0x205f || n = 0x3000 || n = 0xfeff

/-- JavaScript `\w`, i.e. `[A-Za-z0-9_]`; used for `\b` word boundaries. -/
def isWordChar (c : Char) : Bool :=
  let n := c.toNat
  (65 ≤ n && n ≤ 90) || (97 ≤ n && n ≤ 122) || (48 ≤ n && n ≤ 57) || n = 95

/-- First character of an identifier: `[A-Za-z_]`. -/
def isIdentStart (c : Char) : Bool :=
  let n := c.toNat
  (65 ≤ n && n ≤ 90) || (97 ≤ n && n ≤ 122) || n = 95

/-- Subsequent identifier characters: `[A-Za-z0-9_]`. -/
def isIdentChar (c : Char) : Bool := isWordChar c

/-- The character class `[a-zA-Z0-9_\[\].]` of the string-concatenation
regexes in `runStaticRules`. -/
def isConcatChar (c : Char) : Bool :=
  isWordChar c || c = '[' || c = ']' || c = '.'

/-- Word-ness of the character preceding the current scan position (`none`
means the position is the start of the line); out of range counts as
non-word for JavaScript `\b`. -/
def isWordOpt : Option Char → Bool
  | none => false
  | some c => isWordChar c

/-- The `text.split(/\r?\n/)` over `List Char`: a separator is `"\r\n"` or
`"\n"`; a lone CR character is not a separator and stays in its line. -/
def splitLinesAux : List Char → List Char → List (List Char)
  | [], acc => [acc.reverse]
  | '\n' :: rest, acc => acc.reverse :: splitLinesAux rest []
  | '\r' :: '\n' :: rest, acc => acc.reverse :: splitLinesAux rest []
  | c :: rest, acc => splitLinesAux rest (c :: acc)

/-- The `text.split(/\r?\n/)`. -/
def splitLines (text : List Char) : List (List Char) :=
  splitLinesAux text []

/-- Replace every LF character by the CRLF pair (used to state line-ending
invariance). -/
def crlf : List Char → List Char
  | [] => []
  | c :: rest => if c = '\n' then '\r' :: '\n' :: crlf rest else c :: crlf rest

/-- The `tok` is a prefix of `s` (plain structural definition, used by the
scanners). -/
def hasPrefixL : List Char → List Char → Bool
  | [], _ => true
  | _ :: _, [] => false
  | t :: ts, c :: cs => t = c && hasPrefixL ts cs

/-- The `s.indexOf(tok)` returning `none` instead of `-1`. -/
def findSubIdx (tok : List Char) : List Char → Option Nat
  | [] => if hasPrefixL tok [] then some 0 else none
  | c :: rest =>
    if hasPrefixL tok (c :: rest) then some 0
    else (findSubIdx tok rest).map (· + 1)

/-- The `s.includes(tok)`. -/
def containsSub (tok s : List Char) : Bool :=
  (findSubIdx tok s).isSome

/-- First suffix of the line (with the character preceding it) on which the
matcher `f` succeeds; models a regex engine trying each start position from
left to right. -/
def firstSuffix (f : Option Char → List Char → Option α) :
    Option Char → List Char → Option α
  | _, [] => none
  | prev, c :: rest =>
    match f prev (c :: rest) with
    | some v => some v
    | none => firstSuffix f (some c) rest

/-- Boolean version of `firstSuffix`. -/
def existsSuffix (f : Option Char → List Char → Bool) :
    Option Char → List Char → Bool
  | _, [] => false
  | prev, c :: rest => f prev (c :: rest) || existsSuffix f (some c) rest

/-- Attempt of `/\bin\s+([A-Za-z_][A-Za-z0-9_]*)\b/` at the current position:
the letter i after a word boundary, then `"in"`, at least one white-space character, then
a maximal identifier (whose trailing `\b` is automatic).  Returns the
captured identifier. -/
def matchInVarAt (prev : Option Char) : List Char → Option (List Char)
  | 'i' :: 'n' :: rest =>
    if isWordOpt prev then none
    else
      match rest with
      | d :: _ =>
        if isSpaceJS d then
          match rest.dropWhile isSpaceJS with
          | e :: es =>
            if isIdentStart e then some (e :: es.takeWhile isIdentChar) else none
          | [] => none
        else none
      | [] => none
  | _ => none

/-- The `line.match(/\bin\s+([A-Za-z_][A-Za-z0-9_]*)\b/)`: captured variable name
of the first match. -/
def findInVar (line : List Char) : Option (List Char) :=
  firstSuffix matchInVarAt none line

/-- Attempt of `/\bin\s*<open>/` at the current position. -/
def matchInOpenAt (opener : Char) (prev : Option Char) : List Char → Bool
  | 'i' :: 'n' :: rest =>
    !isWordOpt prev &&
      (match rest.dropWhile isSpaceJS with
       | e :: _ => e = opener
       | [] => false)
  | _ => false

/-- The `/\bin\s*\[/.test(line) || /\bin\s*\(/.test(line)`: membership test
against an inline list/tuple literal. -/
def testInLiteral (line : List Char) : Bool :=
  existsSuffix (matchInOpenAt '[') none line ||
  existsSuffix (matchInOpenAt '(') none line

/-- The alternation heading a string-ish right-hand operand: an optional f
followed by a double or single quote, or `str(`, or `format(`, or a bare
opening parenthesis. -/
def strOperand : List Char → Bool
  | '"' :: _ => true
  | '\'' :: _ => true
  | 'f' :: '"' :: _ => true
  | 'f' :: '\'' :: _ => true
  | 's' :: 't' :: 'r' :: '(' :: _ => true
  | 'f' :: 'o' :: 'r' :: 'm' :: 'a' :: 't' :: '(' :: _ => true
  | '(' :: _ => true
  | _ => false

/-- Attempt of the `stringConcatAugAssign` regex (word boundary, a nonempty
concat-class run, optional spaces, `+=`, optional spaces, then `strOperand`,
then anything) at the current position.  The classes `[a-zA-Z0-9_\[\].]`, `\s` and `{+}` are
pairwise disjoint, so greedy maximal munch is the unique possible match. -/
def matchConcatAugAt (prev : Option Char) (s : List Char) : Bool :=
  match s with
  | c :: _ =>
    if isConcatChar c && (isWordChar c != isWordOpt prev) then
      match (s.dropWhile isConcatChar).dropWhile isSpaceJS with
      | '+' :: '=' :: r3 => strOperand (r3.dropWhile isSpaceJS)
      | _ => false
    else false
  | [] => false

/-- The `stringConcatAugAssign` regex of `runStaticRules`. -/
def testConcatAug (line : List Char) : Bool :=
  existsSuffix matchConcatAugAt none line

/-- Attempt of the `stringConcatExplicit` regex (word boundary, a captured
nonempty concat-class run, `=`, the same run again as the back-reference,
`+`, then `strOperand`, with optional spaces between the pieces) at the
current position; the back-reference is the greedily captured run. -/
def matchConcatExplAt (prev : Option Char) (s : List Char) : Bool :=
  match s with
  | c :: _ =>
    if isConcatChar c && (isWordChar c != isWordOpt prev) then
      let name := s.takeWhile isConcatChar
      match (s.dropWhile isConcatChar).dropWhile isSpaceJS with
      | '=' :: r2 =>
        let r3 := r2.dropWhile isSpaceJS
        if hasPrefixL name r3 then
          match (r3.drop name.length).dropWhile isSpaceJS with
          | '+' :: r5 => strOperand (r5.dropWhile isSpaceJS)
          | _ => false
        else false
      | _ => false
    else false
  | [] => false

/-- The `stringConcatExplicit` regex of `runStaticRules`. -/
def testConcatExpl (line : List Char) : Bool :=
  existsSuffix matchConcatExplAt none line

/-- Attempt of `/\.pop\(\s*0\s*\)/` at the current position. -/
def matchPopFrontAt (_prev : Option Char) : List Char → Bool
  | '.' :: 'p' :: 'o' :: 'p' :: '(' :: r =>
    (match r.dropWhile isSpaceJS with
     | '0' :: r2 =>
       (match r2.dropWhile isSpaceJS with
        | ')' :: _ => true
        | _ => false)
     | _ => false)
  | _ => false

/-- The `/\.pop\(\s*0\s*\)/.test(line)`. -/
def testPopFront (line : List Char) : Bool :=
  existsSuffix matchPopFrontAt none line

/-- Kind of collection literal recorded by the binding tracker. -/
inductive CollKind where
  | list
  | tuple
deriving DecidableEq

/-- The `line.match(/^\s*([A-Za-z_][A-Za-z0-9_]*)\s*=\s*(\[|\()/)`: anchored
match returning the variable name and the literal kind derived from the
opener. -/
def assignMatch (line : List Char) : Option (List Char × CollKind) :=
  match line.dropWhile isSpaceJS with
  | c :: cs =>
    if isIdentStart c then
      let name := c :: cs.takeWhile isIdentChar
      match (cs.dropWhile isIdentChar).dropWhile isSpaceJS with
      | '=' :: r2 =>
        match r2.dropWhile isSpaceJS with
        | '[' :: _ => some (name, CollKind.list)
        | '(' :: _ => some (name, CollKind.tuple)
        | _ => none
      | _ => none
    else none
  | [] => none

/-- The `FindingSeverity` enum of `analyzer.ts`. -/
inductive FindingSeverity where
  | hint
  | info
  | warning
  | error
deriving DecidableEq

/-- The `FindingConfidence` union type of `analyzer.ts`. -/
inductive FindingConfidence where
  | high
  | medium
  | low
deriving DecidableEq

/-- The `FindingRange` interface of `analyzer.ts`. -/
structure FindingRange where
  startLine : Nat
  startChar : Nat
  endLine : Nat
  endChar : Nat
deriving DecidableEq

/-- The `Finding` interface of `analyzer.ts` (`notes` is the optional field). -/
structure Finding where
  ruleId : List Char
  message : List Char
  severity : FindingSeverity
  range : FindingRange
  confidence : FindingConfidence
  needsContext : Bool
  notes : Option (List Char)
deriving DecidableEq

/-- The `buildRange`: first occurrence of the token (clamped to 0 when absent,
matching `Math.max(0, line.indexOf(token))`), end at least one character
after the start. -/
def buildRange (lineNumber : Nat) (line token : List Char) : FindingRange :=
  let startChar := (findSubIdx token line).getD 0
  let endChar := max (startChar + token.length) (startChar + 1)
  { startLine := lineNumber, startChar := startChar
    endLine := lineNumber, endChar := endChar }

/-- Rule id `loop.string-concat`. -/
def loopStringConcatId : List Char := ("loop.string-concat").data

/-- Rule id `loop.re-compile`. -/
def loopReCompileId : List Char := ("loop.re-compile").data

/-- Rule id `loop.pop-front`. -/
def loopPopFrontId : List Char := ("loop.pop-front").data

/-- Rule id `ds.list-membership`. -/
def dsListMembershipId : List Char := ("ds.list-membership").data

/-- Rule id `pandas.apply-rowwise`. -/
def pandasApplyId : List Char := ("pandas.apply-rowwise").data

/-- Rule id `pandas.iterrows`. -/
def pandasIterrowsId : List Char := ("pandas.iterrows").data

/-- Rule id `llm.suggestion` (fallback for augmented findings). -/
def llmSuggestionId : List Char := ("llm.suggestion").data

/-- Message of `loop.string-concat`. -/
def loopStringConcatMsg : List Char :=
  ("Building strings with + or += inside loops can be slow (often quadratic). Prefer collecting parts and using \"\".join(parts), or use io.StringIO / chunked writes for streaming output.").data

/-- Message of `loop.re-compile`. -/
def loopReCompileMsg : List Char :=
  ("Regular expressions compiled inside loops re-do work; compile once outside the loop.").data

/-- Message of `loop.pop-front`. -/
def loopPopFrontMsg : List Char :=
  ("list.pop(0) inside loops is O(n); consider collections.deque for efficient pops from the front.").data

/-- The interpolated kind word of the case-A membership message. -/
def kindWord : CollKind → List Char
  | CollKind.list => ("list").data
  | CollKind.tuple => ("tuple").data

/-- Message of case-A `ds.list-membership` (template interpolating the kind
and the variable name). -/
def memberVarMsg (kind : CollKind) (varName : List Char) : List Char :=
  ("Membership checks against a ").data ++ kindWord kind ++
  (" inside loops are O(n) per lookup. If you do this repeatedly, convert it to a set/dict once (e.g., constSet = set(").data ++
  varName ++ (")) for average O(1) membership.").data

/-- Message of case-B `ds.list-membership`. -/
def memberLiteralMsg : List Char :=
  ("Membership checks against list/tuple literals inside loops are O(n) per lookup and rebuild the literal each time. Move the collection out of the loop and use a set/dict for repeated membership tests.").data

/-- Message of `pandas.apply-rowwise`. -/
def pandasApplyMsg : List Char :=
  ("DataFrame.apply(axis=1) runs Python for each row; vectorize operations where possible.").data

/-- Message of `pandas.iterrows`. -/
def pandasIterrowsMsg : List Char :=
  ("DataFrame.iterrows() is slow for large frames; prefer itertuples() or vectorized operations.").data

/-- The binding tracker `collectionLiteralKindByVar`; only `Map.get`/`Map.set`
are used on it, so it is modelled as an association list where `set` prepends
and `get` takes the first (most recent) entry. -/
abbrev Bindings : Type := List (List Char × CollKind)

/-- The `collectionLiteralKindByVar.get(varName)`. -/
def lookupVar (m : Bindings) (k : List Char) : Option CollKind :=
  match List.find? (fun e => decide (e.1 = k)) m with
  | some e => some e.2
  | none => none

/-- The `collectionLiteralKindByVar.set(varName, kind)`. -/
def setVar (m : Bindings) (k : List Char) (v : CollKind) : Bindings :=
  (k, v) :: m

/-- Indentation width: `line.match(/^\s*/)?.[0].length ?? 0`. -/
def indentOf (line : List Char) : Nat :=
  (line.takeWhile isSpaceJS).length

/-- The `trimmed.startsWith("for ") || trimmed.startsWith("while ")` on
`trimmed = line.trimStart()`. -/
def isLoopHeader (line : List Char) : Bool :=
  hasPrefixL (("for ").data) (line.dropWhile isSpaceJS) ||
  hasPrefixL (("while ").data) (line.dropWhile isSpaceJS)

/-- The pop loop `while (loopIndents.length > 0 && indent <= top) pop()`;
the stack is kept with its top at the head of the list. -/
def popScope (ind : Nat) (stack : List Nat) : List Nat :=
  stack.dropWhile (fun t => decide (ind ≤ t))

/-- One line of scope-tracker bookkeeping (lines 70-81 of `analyzer.ts`):
pop, conditional push, then `insideLoop = loopIndents.some(li => indent > li)`
computed on the updated stack. -/
def stepScope (stack : List Nat) (line : List Char) : List Nat × Bool :=
  let ind := indentOf line
  let popped := popScope ind stack
  let pushed := if isLoopHeader line then ind :: popped else popped
  (pushed, pushed.any (fun t => decide (t < ind)))

/-- One line of binding-tracker bookkeeping (lines 85-90 of `analyzer.ts`). -/
def stepBindings (m : Bindings) (line : List Char) : Bindings :=
  match assignMatch line with
  | some nk => setVar m nk.1 nk.2
  | none => m

/-- Per-scan state: loop-indent stack and binding map, both created fresh at
the start of `runStaticRules` and local to that call. -/
structure ScanState where
  loopIndents : List Nat
  bindings : Bindings

/-- Fresh state at the start of a scan (`const loopIndents = []`,
`new Map()`). -/
def initState : ScanState where
  loopIndents := []
  bindings := []

/-- State update of one scanned line. -/
def stepState (st : ScanState) (line : List Char) : ScanState where
  loopIndents := (stepScope st.loopIndents line).1
  bindings := stepBindings st.bindings line

/-- The findings the seven detectors emit on one line, in source order,
given the already-updated inside-loop flag and binding map (the code records
the assignment of a line before running the detectors on that same line). -/
def lineFindings (lineNumber : Nat) (line : List Char) (insideLoop : Bool)
    (binds : Bindings) : List Finding :=
  let concatAug := insideLoop && testConcatAug line
  let concatExpl := insideLoop && testConcatExpl line
  (if concatAug || concatExpl then
    [{ ruleId := loopStringConcatId, message := loopStringConcatMsg
       severity := FindingSeverity.warning
       range := buildRange lineNumber line
         (if concatExpl then ['+'] else ['+', '='])
       confidence := FindingConfidence.high, needsContext := false
       notes := none }]
   else []) ++
  (if insideLoop && containsSub (("re.compile").data) line then
    [{ ruleId := loopReCompileId, message := loopReCompileMsg
       severity := FindingSeverity.warning
       range := buildRange lineNumber line (("re.compile").data)
       confidence := FindingConfidence.high, needsContext := false
       notes := none }]
   else []) ++
  (if insideLoop && testPopFront line then
    [{ ruleId := loopPopFrontId, message := loopPopFrontMsg
       severity := FindingSeverity.warning
       range := buildRange lineNumber line ((".pop").data)
       confidence := FindingConfidence.high, needsContext := false
       notes := none }]
   else []) ++
  (if insideLoop then
    (match findInVar line with
     | some varName =>
       (match lookupVar binds varName with
        | some kind =>
          [{ ruleId := dsListMembershipId, message := memberVarMsg kind varName
             severity := FindingSeverity.warning
             range := buildRange lineNumber line ((" in ").data)
             confidence := FindingConfidence.high, needsContext := false
             notes := none }]
        | none => [])
     | none => []) ++
    (if testInLiteral line then
      [{ ruleId := dsListMembershipId, message := memberLiteralMsg
         severity := FindingSeverity.warning
         range := buildRange lineNumber line ((" in ").data)
         confidence := FindingConfidence.medium, needsContext := true
         notes := none }]
     else [])
   else []) ++
  (if containsSub ((".apply(").data) line && containsSub (("axis=1").data) line then
    [{ ruleId := pandasApplyId, message := pandasApplyMsg
       severity := FindingSeverity.info
       range := buildRange lineNumber line ((".apply").data)
       confidence := FindingConfidence.medium, needsContext := true
       notes := none }]
   else []) ++
  (if containsSub (("iterrows()").data) line then
    [{ ruleId := pandasIterrowsId, message := pandasIterrowsMsg
       severity := FindingSeverity.info
       range := buildRange lineNumber line (("iterrows").data)
       confidence := FindingConfidence.medium, needsContext := true
       notes := none }]
   else [])

/-- The scan loop of `runStaticRules` over the remaining lines, carrying the
line number and the per-scan state. -/
def scanLines (st : ScanState) (lineNumber : Nat) :
    List (List Char) → List Finding
  | [] => []
  | l :: ls =>
    lineFindings lineNumber l (stepScope st.loopIndents l).2
        (stepBindings st.bindings l) ++
      scanLines (stepState st l) (lineNumber + 1) ls

/-- The `runStaticRules(text)`: split into lines and scan them once, starting
from fresh per-scan state. -/
def runStaticRules (text : List Char) : List Finding :=
  scanLines initState 0 (splitLines text)

/-- Scope-tracker/binding state in force just before the line that follows
the lines `pre` (the fold of the per-line update over `pre`). -/
def stateAfter (pre : List (List Char)) : ScanState :=
  pre.foldl stepState initState

/-- One decoded item of the JSON array payload expected back from the
completion service (`{ruleId, message, severity?, confidence?, notes?}`);
a missing or falsy `ruleId`/`message` string is modelled as `[]`. -/
structure LlmItem where
  ruleId : List Char
  message : List Char
  severity : Option (List Char)
  confidence : Option FindingConfidence
  notes : Option (List Char)
deriving DecidableEq

/-- The one HTTPS request `runLlmPass` issues, reduced to the data that
varies: the document identifier and the snippet embedded in the user
message, and the bearer key (the model name, system message, token budget
and temperature are fixed literals). -/
structure LlmRequest where
  uri : List Char
  snippet : List Char
  apiKey : List Char
deriving DecidableEq

/-- Outcome of the round trip, as observed by the `try` block of
`runLlmPass`: each stage that can throw or bail out is one constructor. -/
inductive LlmOutcome where
  /-- The `fetch` rejected (network failure). -/
  | fetchError
  /-- The `response.json()` rejected: the envelope was not JSON. -/
  | envelopeError
  /-- The `json?.choices?.[0]?.message?.content` was absent (for instance a
  non-2xx error body without `choices`). -/
  | noContent
  /-- The `content` was the empty string, which is falsy in `if (!content)`. -/
  | emptyContent
  /-- The `JSON.parse(content)` threw: the payload was not JSON. -/
  | payloadError
  /-- The parsed payload was not an array, so `.filter` threw. -/
  | payloadNotArray
  /-- A well-formed array of items. -/
  | payload (items : List LlmItem)
deriving DecidableEq

/-- The network transport: what the external service does with the request
`runLlmPass` sends. -/
def LlmTransport : Type := LlmRequest → LlmOutcome

/-- Outcomes on which the `try` block does not reach the mapping step. -/
def isLlmFailure : LlmOutcome → Bool
  | LlmOutcome.payload _ => false
  | _ => true

/-- The `normalizeSeverity`: case-insensitive lookup defaulting to `info`.
`toLowerCase` is modelled on ASCII letters, which covers every comparison
target. -/
def toLowerAscii (s : List Char) : List Char :=
  s.map (fun c => if 65 ≤ c.toNat && c.toNat ≤ 90 then Char.ofNat (c.toNat + 32) else c)

/-- The `normalizeSeverity(severity?)` of `analyzer.ts`. -/
def normalizeSeverity (severity : Option (List Char)) : FindingSeverity :=
  match severity with
  | none => FindingSeverity.info
  | some s =>
    let normalized := toLowerAscii s
    if normalized = ("error").data then FindingSeverity.error
    else if normalized = ("warning").data then FindingSeverity.warning
    else if normalized = ("warn").data then FindingSeverity.warning
    else if normalized = ("hint").data then FindingSeverity.hint
    else FindingSeverity.info

/-- The filter-and-map step of the success path of `runLlmPass`: keep items with
truthy `ruleId` and `message`, then build Findings whose range is the whole
context window. -/
def mapLlmItems (startLine endLine lastLineLen : Nat) (items : List LlmItem) :
    List Finding :=
  (items.filter (fun it => !decide (it.ruleId = []) && !decide (it.message = []))).map
    (fun it =>
      { ruleId := if it.ruleId = [] then llmSuggestionId else it.ruleId
        message := it.message
        severity := normalizeSeverity it.severity
        range := { startLine := startLine, startChar := 0
                   endLine := endLine - 1, endChar := lastLineLen }
        confidence := it.confidence.getD FindingConfidence.low
        needsContext := false
        notes := it.notes })

/-- The `try ... catch` body of `runLlmPass` after the request was sent:
`Except.error` marks the stages that throw (all caught below), `.ok` the
normal returns. -/
def llmAttempt (o : LlmOutcome) (startLine endLine lastLineLen : Nat) :
    Except Unit (List Finding) :=
  match o with
  | LlmOutcome.fetchError => Except.error ()
  | LlmOutcome.envelopeError => Except.error ()
  | LlmOutcome.noContent => Except.ok []
  | LlmOutcome.emptyContent => Except.ok []
  | LlmOutcome.payloadError => Except.error ()
  | LlmOutcome.payloadNotArray => Except.error ()
  | LlmOutcome.payload items => Except.ok (mapLlmItems startLine endLine lastLineLen items)

/-- The `catch` of `runLlmPass`: any thrown error becomes the empty result. -/
def llmDispatch (o : LlmOutcome) (startLine endLine lastLineLen : Nat) :
    List Finding :=
  match llmAttempt o startLine endLine lastLineLen with
  | Except.error _ => []
  | Except.ok fs => fs

/-- The anchor predicate of `runLlmPass`:
`finding.needsContext || finding.confidence === "low"`. -/
def qualifiesForLlm (f : Finding) : Bool :=
  f.needsContext || decide (f.confidence = FindingConfidence.low)

/-- The `existingFindings.find(...)`: the first qualifying finding. -/
def anchorOf (fs : List Finding) : Option Finding :=
  List.find? qualifiesForLlm fs

/-- The `lines.slice(startLine, endLine).join("\n")` of `runLlmPass`. -/
def joinNL : List (List Char) → List Char
  | [] => []
  | [l] => l
  | l :: ls => l ++ '\n' :: joinNL ls

/-- The snippet of the context window `[s, e)`. -/
def llmSnippet (lines : List (List Char)) (s e : Nat) : List Char :=
  joinNL ((lines.drop s).take (e - s))

/-- The `runLlmPass(uri, text, existingFindings, apiKey)` with the network
modelled by `transport`.  `contextWindow = 12`, so the window is
`[max(0, startLine - 6), min(lines.length, endLine + 6))` (the `max` is the
truncation of `Nat` subtraction). -/
def runLlmPass (transport : LlmTransport) (uri text : List Char)
    (existingFindings : List Finding) (apiKey : List Char) : List Finding :=
  let lines := splitLines text
  match anchorOf existingFindings with
  | none => []
  | some anchor =>
    let s := anchor.range.startLine - 6
    let e := min lines.length (anchor.range.endLine + 6)
    llmDispatch (transport { uri := uri, snippet := llmSnippet lines s e, apiKey := apiKey })
      s e (((lines.get? (e - 1)).map List.length).getD 0)

/-- The module-level mutable configuration of `analyzer.ts`
(`apiKeyProvider` and `llmEnabled`, both possibly unset).  The asynchronous
provider is modelled by the value its promise resolves to (`none` for
`undefined`). -/
structure AnalyzerState where
  apiKeyProvider : Option (Option (List Char))
  llmEnabled : Option Bool
deriving DecidableEq

/-- Argument of `configureAnalyzer` (both fields optional). -/
structure AnalyzerConfig where
  getApiKey : Option (Option (List Char))
  enableLLM : Option Bool
deriving DecidableEq

/-- The `configureAnalyzer(config)`: nullish-coalescing merge into the module
state (`x = config.f ?? x` for each field). -/
def configureAnalyzer (config : AnalyzerConfig) (st : AnalyzerState) :
    AnalyzerState where
  apiKeyProvider :=
    match config.getApiKey with
    | some p => some p
    | none => st.apiKeyProvider
  llmEnabled :=
    match config.enableLLM with
    | some b => some b
    | none => st.llmEnabled

/-- The `analyzePython(uri, text)`.  `defaultEnableLLM` is the module constant
`DEFAULT_ENABLE_LLM` derived from the environment at load time; `st` is the
module-level configuration; `transport` the network.  `!key` is falsy for
`undefined` and for the empty string. -/
def analyzePython (defaultEnableLLM : Bool) (st : AnalyzerState)
    (transport : LlmTransport) (uri text : List Char) : List Finding :=
  let ruleFindings := runStaticRules text
  let needsLLM := ruleFindings.any
    (fun finding => decide (finding.confidence = FindingConfidence.low) || finding.needsContext)
  if !needsLLM then ruleFindings
  else if !(st.llmEnabled.getD defaultEnableLLM) then ruleFindings
  else
    match st.apiKeyProvider.bind (fun p => p) with
    | none => ruleFindings
    | some key =>
      if key = [] then ruleFindings
      else ruleFindings ++ runLlmPass transport uri text ruleFindings key

/-- One top-level analysis call together with the module state it leaves
behind: `analyzePython` reads but never writes the module configuration, so
the state passes through unchanged. -/
def analyzeCall (defaultEnableLLM : Bool) (st : AnalyzerState)
    (transport : LlmTransport) (uri text : List Char) :
    List Finding × AnalyzerState :=
  (analyzePython defaultEnableLLM st transport uri text, st)

/-- The spec scenario text of the string-concatenation claim. -/
def c5Text : List Char :=
  ("def build():\n    s = \"\"\n    for i in range(5):\n        s += \"x\"\n    return s\n").data

/-- The single finding the scanner produces on `c5Text`: `loop.string-concat`
on line 3 (the line containing the augmented assignment), at the first
occurrence of its token. -/
def c5Expected : Finding where
  ruleId := loopStringConcatId
  message := loopStringConcatMsg
  severity := FindingSeverity.warning
  range := { startLine := 3, startChar := 10, endLine := 3, endChar := 12 }
  confidence := FindingConfidence.high
  needsContext := false
  notes := none

/-- Spec scenario: a list-literal binding followed by a membership test
inside a deeper `for` body. -/
def c4TextA : List Char :=
  ("allowed = [1, 2, 3]\nfor item in items:\n    if x in allowed:\n        pass").data

/-- Spec scenario: membership against an inline list literal inside a loop,
with no prior binding. -/
def c4TextB : List Char :=
  ("for item in items:\n    if x in [1, 2]:\n        pass").data

/-- Concrete document identifier used by witnesses. -/
def wUri : List Char := ("file.py").data

/-- Concrete non-empty credential used by witnesses. -/
def wKey : List Char := ("sk-test").data

/-- A transport on which every request fails at the network stage. -/
def failTransport : LlmTransport := fun _ => LlmOutcome.fetchError

/-- A transport that answers every request with an empty payload array. -/
def emptyTransport : LlmTransport := fun _ => LlmOutcome.payload []

/-- Text with no findings at all (so no augmentation anchor). -/
def c6TextA : List Char := ("pass").data

/-- Text whose single finding (`pandas.iterrows`) needs context, hence is an
augmentation anchor. -/
def c6TextB : List Char := ("df.iterrows()").data

/-- The finding the scanner produces on `c6TextB`. -/
def iterrowsFinding : Finding where
  ruleId := pandasIterrowsId
  message := pandasIterrowsMsg
  severity := FindingSeverity.info
  range := { startLine := 0, startChar := 3, endLine := 0, endChar := 11 }
  confidence := FindingConfidence.medium
  needsContext := true
  notes := none

/-- A fully configured module state (provider resolving to `wKey`,
augmentation enabled). -/
def stEnabled : AnalyzerState where
  apiKeyProvider := some (some wKey)
  llmEnabled := some true

/-- A module state with augmentation explicitly disabled. -/
def stDisabled : AnalyzerState where
  apiKeyProvider := some (some wKey)
  llmEnabled := some false

/-- A configuration argument omitting the provider and disabling the flag. -/
def cfgW : AnalyzerConfig where
  getApiKey := none
  enableLLM := some false

/-- Lines preceding the witness line of the scope-tracker claim: one loop
header at indentation 0. -/
def preC3 : List (List Char) := [("for x in items:").data]

/-- Witness line of the scope-tracker claim: a nested loop header at
indentation 4. -/
def lineC3 : List Char := ("    while y:").data

/-- Witness text of the line-ending-invariance claim. -/
def textC10 : List Char := ("for x in y:\n    s += \"a\"").data

/-- Every finding a single line emits sits on that line and carries one of
the two confidence/needsContext combinations the detectors hard-code. -/
theorem lineFindings_mem {n : Nat} {line : List Char} {ins : Bool}
    {b : Bindings} {f : Finding} (hf : f ∈ lineFindings n line ins b) :
    f.range.startLine = n ∧ f.range.endLine = n ∧
      ((f.confidence = FindingConfidence.high ∧ f.needsContext = false) ∨
        (f.confidence = FindingConfidence.medium ∧ f.needsContext = true)) := by
  simp only [lineFindings, List.mem_append] at hf
  rcases hf with ((((h | h) | h) | h) | h) | h
  · split at h
    · rw [List.mem_singleton] at h
      subst h
      exact ⟨rfl, rfl, Or.inl ⟨rfl, rfl⟩⟩
    · exact absurd h (List.not_mem_nil f)
  · split at h
    · rw [List.mem_singleton] at h
      subst h
      exact ⟨rfl, rfl, Or.inl ⟨rfl, rfl⟩⟩
    · exact absurd h (List.not_mem_nil f)
  · split at h
    · rw [List.mem_singleton] at h
      subst h
      exact ⟨rfl, rfl, Or.inl ⟨rfl, rfl⟩⟩
    · exact absurd h (List.not_mem_nil f)
  · split at h
    · rw [List.mem_append] at h
      rcases h with h | h
      · split at h
        · split at h
          · rw [List.mem_singleton] at h
            subst h
            exact ⟨rfl, rfl, Or.inl ⟨rfl, rfl⟩⟩
          · exact absurd h (List.not_mem_nil f)
        · exact absurd h (List.not_mem_nil f)
      · split at h
        · rw [List.mem_singleton] at h
          subst h
          exact ⟨rfl, rfl, Or.inr ⟨rfl, rfl⟩⟩
        · exact absurd h (List.not_mem_nil f)
    · exact absurd h (List.not_mem_nil f)
  · split at h
    · rw [List.mem_singleton] at h
      subst h
      exact ⟨rfl, rfl, Or.inr ⟨rfl, rfl⟩⟩
    · exact absurd h (List.not_mem_nil f)
  · split at h
    · rw [List.mem_singleton] at h
      subst h
      exact ⟨rfl, rfl, Or.inr ⟨rfl, rfl⟩⟩
    · exact absurd h (List.not_mem_nil f)

/-- Findings collected by the scan loop lie on scanned lines (their index is
in range and start = end), with the detector confidence invariant. -/
theorem scanLines_mem : ∀ (ls : List (List Char)) (st : ScanState) (n : Nat)
    (f : Finding), f ∈ scanLines st n ls →
    n ≤ f.range.startLine ∧ f.range.startLine < n + ls.length ∧
      f.range.endLine = f.range.startLine ∧
      ((f.confidence = FindingConfidence.high ∧ f.needsContext = false) ∨
        (f.confidence = FindingConfidence.medium ∧ f.needsContext = true))
  | [], _, _, f, hf => absurd hf (List.not_mem_nil f)
  | l :: ls, st, n, f, hf => by
    rw [scanLines, List.mem_append] at hf
    rcases hf with h | h
    · obtain ⟨h1, h2, h3⟩ := lineFindings_mem h
      refine ⟨by omega, by simp; omega, by omega, h3⟩
    · obtain ⟨h1, h2, h3, h4⟩ := scanLines_mem ls (stepState st l) (n + 1) f h
      exact ⟨by omega, by simp; omega, h3, h4⟩

/-- Findings of `runStaticRules` are single-line, in range, and carry the
detector confidence invariant. -/
theorem runStaticRules_mem {text : List Char} {f : Finding}
    (hf : f ∈ runStaticRules text) :
    f.range.endLine = f.range.startLine ∧
      f.range.startLine < (splitLines text).length ∧
      ((f.confidence = FindingConfidence.high ∧ f.needsContext = false) ∨
        (f.confidence = FindingConfidence.medium ∧ f.needsContext = true)) := by
  obtain ⟨h1, h2, h3, h4⟩ := scanLines_mem (splitLines text) initState 0 f hf
  exact ⟨h3, by omega, h4⟩

/-- The `dropWhile` keeps any pairwise property. -/
theorem pairwise_dropWhile {α : Type} {R : α → α → Prop} (p : α → Bool)
    {l : List α} (h : l.Pairwise R) : (l.dropWhile p).Pairwise R := by
  induction l with
  | nil => simp [List.dropWhile]
  | cons a t ih =>
    rw [List.dropWhile_cons]
    rcases List.pairwise_cons.mp h with ⟨_, ht⟩
    split
    · exact ih ht
    · exact h

/-- On a strictly decreasing stack (top at the head), the pop loop
`while top exists and indent ≤ top: pop` removes exactly the entries that
are ≥ the current indentation. -/
theorem popScope_eq_filter {ind : Nat} : ∀ {l : List Nat},
    l.Pairwise (fun a b => b < a) →
    popScope ind l = l.filter (fun t => decide (t < ind))
  | [], _ => rfl
  | a :: t, h => by
    rcases List.pairwise_cons.mp h with ⟨ha, ht⟩
    by_cases hle : ind ≤ a
    · rw [popScope, List.dropWhile_cons, if_pos (by simpa using hle),
        List.filter_cons_of_neg (by simp; omega)]
      exact popScope_eq_filter ht
    · rw [popScope, List.dropWhile_cons, if_neg (by simpa using hle),
        List.filter_cons_of_pos (by simp; omega)]
      congr 1
      exact (List.filter_eq_self.mpr (fun x hx => by
        have := ha x hx
        simp
        omega)).symm

/-- One scope-tracker step keeps the stack strictly decreasing (top at the
head, i.e. bottom-to-top strictly increasing indentation). -/
theorem stepScope_pairwise {st : List Nat} (line : List Char)
    (h : st.Pairwise (fun a b => b < a)) :
    ((stepScope st line).1).Pairwise (fun a b => b < a) := by
  have hpop : (popScope (indentOf line) st).Pairwise (fun a b => b < a) :=
    pairwise_dropWhile _ h
  unfold stepScope
  split
  · refine List.pairwise_cons.mpr ⟨?_, hpop⟩
    intro b hb
    rw [popScope_eq_filter h] at hb
    exact of_decide_eq_true (List.mem_filter.mp hb).2
  · exact hpop

/-- The scan state reached after any sequence of lines has a strictly
decreasing loop-indent stack. -/
theorem stateAfter_pairwise : ∀ (pre : List (List Char)) (st : ScanState),
    st.loopIndents.Pairwise (fun a b => b < a) →
    ((pre.foldl stepState st).loopIndents).Pairwise (fun a b => b < a)
  | [], _, h => h
  | l :: ls, st, h =>
    stateAfter_pairwise ls (stepState st l) (stepScope_pairwise l h)

/-- The `find?` returns the head of the filtered list: the first match in order. -/
theorem find?_eq_head?_filter (p : α → Bool) :
    ∀ l : List α, l.find? p = (l.filter p).head?
  | [] => rfl
  | a :: t => by
    cases hpa : p a
    · rw [List.find?_cons_of_neg _ (by simp [hpa]), List.filter_cons_of_neg (by simp [hpa])]
      exact find?_eq_head?_filter p t
    · rw [List.find?_cons_of_pos _ hpa, List.filter_cons_of_pos hpa]
      rfl

/-- The `any` of a list only depends on the values of the predicate on the
members. -/
theorem any_eq_of_mem {α : Type} {p q : α → Bool} : ∀ {l : List α},
    (∀ x ∈ l, p x = q x) → l.any p = l.any q
  | [], _ => rfl
  | a :: t, h => by
    rw [List.any_cons, List.any_cons, h a (List.mem_cons_self a t),
      any_eq_of_mem (fun x hx => h x (List.mem_cons_of_mem a hx))]

/-- Failure outcomes make the catch of `runLlmPass` produce the empty list. -/
theorem llmDispatch_of_failure {o : LlmOutcome} (h : isLlmFailure o = true)
    (a b c : Nat) : llmDispatch o a b c = [] := by
  cases o
  all_goals simp [llmDispatch, llmAttempt]
  simp [isLlmFailure] at h

/-- On a transport that fails every request, `runLlmPass` returns `[]`. -/
theorem runLlmPass_of_failure {t : LlmTransport}
    (h : ∀ req, isLlmFailure (t req) = true) (uri text : List Char)
    (fs : List Finding) (key : List Char) :
    runLlmPass t uri text fs key = [] := by
  rw [runLlmPass]
  split
  · rfl
  · exact llmDispatch_of_failure (h _) _ _ _

/-- Claim C1: if augmentation is disabled (explicit flag `false`, or unset
with an environment default of `false`), or the credential lookup resolves
to an absent or empty value, `analyzePython` returns exactly the output of
`runStaticRules`, unchanged. -/
theorem analyze_disabled_or_no_key_returns_rules (d : Bool) (st : AnalyzerState)
    (t : LlmTransport) (uri text : List Char)
    (h : st.llmEnabled.getD d = false ∨
      st.apiKeyProvider.bind (fun p => p) = none ∨
      st.apiKeyProvider.bind (fun p => p) = some []) :
    analyzePython d st t uri text = runStaticRules text := by
  rcases h with h | h | h <;> simp [analyzePython, h]

/-- Witness for C1: with the flag explicitly `false` (environment default
`true`), the analysis of the membership scenario equals its rule findings. -/
theorem analyze_disabled_or_no_key_returns_rules_witness :
    stDisabled.llmEnabled.getD true = false ∧
    analyzePython true stDisabled failTransport wUri c4TextB =
      runStaticRules c4TextB :=
  ⟨by decide,
    analyze_disabled_or_no_key_returns_rules true stDisabled failTransport wUri
      c4TextB (Or.inl (by decide))⟩

/-- Claim C2: whatever failure the transport produces (network error,
non-JSON envelope, missing or empty content, non-JSON payload, payload that
is not an array), the augmentation stage yields `[]` instead of raising, and
`analyzePython` still resolves to the rule findings; moreover for every
transport whatsoever the analysis resolves to the rule findings followed by
a (possibly empty) augmentation suffix. -/
theorem llm_failures_collapse (t : LlmTransport) (uri text key : List Char)
    (fs : List Finding) (h : ∀ req, isLlmFailure (t req) = true) :
    runLlmPass t uri text fs key = [] ∧
    (∀ (d : Bool) (st : AnalyzerState),
      analyzePython d st t uri text = runStaticRules text) ∧
    (∀ (t2 : LlmTransport) (d : Bool) (st : AnalyzerState),
      ∃ extra, analyzePython d st t2 uri text = runStaticRules text ++ extra) := by
  refine ⟨runLlmPass_of_failure h uri text fs key, fun d st => ?_, fun t2 d st => ?_⟩
  · simp only [analyzePython]
    split
    · rfl
    · split
      · rfl
      · split
        · rfl
        · split
          · rfl
          · rw [runLlmPass_of_failure h, List.append_nil]
  · simp only [analyzePython]
    split
    · exact ⟨[], by simp⟩
    · split
      · exact ⟨[], by simp⟩
      · split
        · exact ⟨[], by simp⟩
        · split
          · exact ⟨[], by simp⟩
          · exact ⟨_, rfl⟩

/-- Witness for C2: a transport whose every request ends in a network error
yields an empty augmentation and leaves the analysis output equal to the
rule findings, even with augmentation enabled and a key configured. -/
theorem llm_failures_collapse_witness :
    (∀ req, isLlmFailure (failTransport req) = true) ∧
    runLlmPass failTransport wUri c4TextB (runStaticRules c4TextB) wKey = [] ∧
    analyzePython true stEnabled failTransport wUri c4TextB =
      runStaticRules c4TextB :=
  ⟨fun _ => rfl,
    (llm_failures_collapse failTransport wUri c4TextB wKey
      (runStaticRules c4TextB) (fun _ => rfl)).1,
    (llm_failures_collapse failTransport wUri c4TextB wKey
      (runStaticRules c4TextB) (fun _ => rfl)).2.1 true stEnabled⟩

set_option maxRecDepth 20000 in
/-- Claim C5: on the spec scenario text, the rule stage produces exactly one
finding, `loop.string-concat`, located on the line containing the augmented
string assignment (line 3), with start and end on that line. -/
theorem c5_single_concat_finding : runStaticRules c5Text = [c5Expected] := by
  decide

/-- Claim C7: two analysis calls on identical text produce identical ordered
finding lists; the module configuration passes through a call unchanged, and
every scan starts from the fresh initial state (empty scope stack and empty
binding map), so no scan state survives a call. -/
theorem analysis_deterministic (d : Bool) (st : AnalyzerState)
    (t : LlmTransport) (uri text : List Char) :
    (analyzeCall d st t uri text).1 =
      (analyzeCall d (analyzeCall d st t uri text).2 t uri text).1 ∧
    (analyzeCall d st t uri text).2 = st ∧
    runStaticRules text = scanLines initState 0 (splitLines text) :=
  ⟨rfl, rfl, rfl⟩

/-- Claim C9: `configureAnalyzer` merges: an omitted field leaves the
previously configured value unchanged, an explicitly supplied value
(including `false`) overwrites it, independently for both fields. -/
theorem configure_merges_fields (st : AnalyzerState) (c : AnalyzerConfig) :
    ((c.getApiKey = none →
        (configureAnalyzer c st).apiKeyProvider = st.apiKeyProvider) ∧
      ∀ p, c.getApiKey = some p →
        (configureAnalyzer c st).apiKeyProvider = some p) ∧
    ((c.enableLLM = none → (configureAnalyzer c st).llmEnabled = st.llmEnabled) ∧
      ∀ b, c.enableLLM = some b → (configureAnalyzer c st).llmEnabled = some b) := by
  refine ⟨⟨fun h => ?_, fun p h => ?_⟩, fun h => ?_, fun b h => ?_⟩ <;>
    simp [configureAnalyzer, h]

/-- Witness for C9: a call omitting the provider but passing `false` for the
toggle keeps the provider and overwrites the toggle. -/
theorem configure_merges_fields_witness :
    (cfgW.getApiKey = none ∧
      (configureAnalyzer cfgW stEnabled).apiKeyProvider =
        stEnabled.apiKeyProvider) ∧
    (cfgW.enableLLM = some false ∧
      (configureAnalyzer cfgW stEnabled).llmEnabled = some false) :=
  ⟨⟨rfl, (configure_merges_fields stEnabled cfgW).1.1 rfl⟩,
    rfl, (configure_merges_fields stEnabled cfgW).2.2 false rfl⟩

/-- Splitting is blind to the CRLF encoding of line breaks: on text free of
carriage returns, replacing every `'\n'` by `"\r\n"` splits into the same
lines. -/
theorem splitLinesAux_cons_of_ne {c : Char} (rest acc : List Char)
    (hn : c ≠ '\n') (hc : c ≠ '\r') :
    splitLinesAux (c :: rest) acc = splitLinesAux rest (c :: acc) := by
  rw [splitLinesAux.eq_def]
  split
  · rename_i heq
    exact absurd heq (by simp)
  · rename_i heq
    injection heq with h1 _
    exact absurd h1 hn
  · rename_i heq
    injection heq with h1 _
    exact absurd h1 hc
  · rename_i heq
    injection heq with e1 e2
    subst e1
    subst e2
    rfl

theorem splitLinesAux_crlf :
    ∀ (cs : List Char), '\r' ∉ cs → ∀ (acc : List Char),
      splitLinesAux (crlf cs) acc = splitLinesAux cs acc := by
  intro cs
  induction cs with
  | nil => intro _ _; rfl
  | cons c rest ih =>
    intro h acc
    have hc : ¬c = '\r' := fun e => h (by rw [e]; exact List.mem_cons_self _ _)
    have hr : '\r' ∉ rest := fun m => h (List.mem_cons_of_mem _ m)
    by_cases hn : c = '\n'
    · subst hn
      rw [crlf, if_pos rfl]
      show splitLinesAux ('\r' :: '\n' :: crlf rest) acc =
        splitLinesAux ('\n' :: rest) acc
      rw [show splitLinesAux ('\r' :: '\n' :: crlf rest) acc =
            acc.reverse :: splitLinesAux (crlf rest) [] from rfl,
        show splitLinesAux ('\n' :: rest) acc =
            acc.reverse :: splitLinesAux rest [] from rfl,
        ih hr []]
    · rw [crlf, if_neg hn, splitLinesAux_cons_of_ne _ _ hn hc,
        splitLinesAux_cons_of_ne _ _ hn hc]
      exact ih hr (c :: acc)

/-- Claim C10: for text containing no carriage returns, the rule stage
produces exactly the same findings (same lines, same character ranges) on
the text and on its CRLF re-encoding. -/
theorem crlf_rule_invariance (text : List Char) (h : '\r' ∉ text) :
    runStaticRules (crlf text) = runStaticRules text := by
  unfold runStaticRules splitLines
  rw [splitLinesAux_crlf text h []]

/-- Witness for C10: a concrete two-line loop, CR-free, analyzed equally
under LF and CRLF line endings. -/
theorem crlf_rule_invariance_witness :
    '\r' ∉ textC10 ∧
    runStaticRules (crlf textC10) = runStaticRules textC10 :=
  ⟨by decide, crlf_rule_invariance textC10 (by decide)⟩

/-- Claim C3: per line, the scope tracker pops exactly the stack entries
that are ≥ the current indentation (the while-pop equals the filter because
the reachable stack is strictly decreasing toward the bottom), pushes on a
loop header, and reports inside-loop iff some remaining entry is strictly
below the current indentation; consequently a loop-header line is never
inside the loop it itself opens: its inside-loop flag already equals the
pre-push test against the popped stack (only enclosing loops count). -/
theorem scope_tracker_spec (pre : List (List Char)) (line : List Char) :
    List.Pairwise (fun a b => b < a) (stateAfter pre).loopIndents ∧
    popScope (indentOf line) (stateAfter pre).loopIndents =
      (stateAfter pre).loopIndents.filter (fun t => decide (t < indentOf line)) ∧
    (stepScope (stateAfter pre).loopIndents line).2 =
      ((stepScope (stateAfter pre).loopIndents line).1).any
        (fun t => decide (t < indentOf line)) ∧
    (isLoopHeader line = true →
      (stepScope (stateAfter pre).loopIndents line).2 =
        (popScope (indentOf line) (stateAfter pre).loopIndents).any
          (fun t => decide (t < indentOf line))) := by
  have hp := stateAfter_pairwise pre initState List.Pairwise.nil
  refine ⟨hp, popScope_eq_filter hp, rfl, fun hl => ?_⟩
  simp [stepScope, hl, Nat.lt_irrefl]

/-- Witness for C3: after a `for` header at indentation 0, a nested `while`
header at indentation 4 is a loop header whose inside-loop flag equals the
pre-push test (true here, because of the enclosing loop only). -/
theorem scope_tracker_spec_witness :
    isLoopHeader lineC3 = true ∧
    (stepScope (stateAfter preC3).loopIndents lineC3).2 =
      (popScope (indentOf lineC3) (stateAfter preC3).loopIndents).any
        (fun t => decide (t < indentOf lineC3)) :=
  ⟨by decide, (scope_tracker_spec preC3 lineC3).2.2.2 (by decide)⟩

set_option maxRecDepth 20000 in
/-- Claim C4: inside a loop, a membership test `in name` against a bound
variable yields a `ds.list-membership` finding with confidence high,
needsContext false, severity warning; a membership test against an inline
list/tuple literal yields one with confidence medium and needsContext true;
in particular the two spec scenarios produce exactly those findings. -/
theorem membership_rule_spec (n : Nat) (line : List Char) (binds : Bindings) :
    (∀ varName kind, findInVar line = some varName →
      lookupVar binds varName = some kind →
      ∃ f ∈ lineFindings n line true binds,
        f.ruleId = dsListMembershipId ∧ f.confidence = FindingConfidence.high ∧
          f.needsContext = false ∧ f.severity = FindingSeverity.warning) ∧
    (testInLiteral line = true →
      ∃ f ∈ lineFindings n line true binds,
        f.ruleId = dsListMembershipId ∧ f.confidence = FindingConfidence.medium ∧
          f.needsContext = true ∧ f.severity = FindingSeverity.warning) ∧
    (∃ f ∈ runStaticRules c4TextA,
      f.ruleId = dsListMembershipId ∧ f.confidence = FindingConfidence.high ∧
        f.needsContext = false ∧ f.severity = FindingSeverity.warning ∧
        f.range.startLine = 2) ∧
    (∃ f ∈ runStaticRules c4TextB,
      f.ruleId = dsListMembershipId ∧ f.confidence = FindingConfidence.medium ∧
        f.needsContext = true ∧ f.severity = FindingSeverity.warning ∧
        f.range.startLine = 1) := by
  refine ⟨fun varName kind hv hk => ?_, fun hlit => ?_, by decide, by decide⟩
  · refine ⟨{ ruleId := dsListMembershipId
              message := memberVarMsg kind varName
              severity := FindingSeverity.warning
              range := buildRange n line ((" in ").data)
              confidence := FindingConfidence.high
              needsContext := false
              notes := none }, ?_, rfl, rfl, rfl, rfl⟩
    simp [lineFindings, hv, hk]
  · refine ⟨{ ruleId := dsListMembershipId
              message := memberLiteralMsg
              severity := FindingSeverity.warning
              range := buildRange n line ((" in ").data)
              confidence := FindingConfidence.medium
              needsContext := true
              notes := none }, ?_, rfl, rfl, rfl, rfl⟩
    simp [lineFindings, hlit]

/-- Witness for C4: the concrete membership line against the binding map
holding `allowed` as a list literal. -/
theorem membership_rule_spec_witness :
    findInVar (("    if x in allowed:").data) = some (("allowed").data) ∧
    lookupVar [((("allowed").data), CollKind.list)] (("allowed").data) =
      some CollKind.list ∧
    (∃ f ∈ lineFindings 2 (("    if x in allowed:").data) true
        [((("allowed").data), CollKind.list)],
      f.ruleId = dsListMembershipId ∧ f.confidence = FindingConfidence.high ∧
        f.needsContext = false ∧ f.severity = FindingSeverity.warning) :=
  ⟨by decide, by decide,
    (membership_rule_spec 2 (("    if x in allowed:").data)
      [((("allowed").data), CollKind.list)]).1 (("allowed").data) CollKind.list
      (by decide) (by decide)⟩

/-- Claim C6: the augmentor anchors on the first finding (in output order)
that needs context or has low confidence — `find?` equals the head of the
filtered list; with no qualifying finding it contributes nothing for every
transport; with an anchor, the window is clipped to the document
(`e ≤ number of lines`), spans at most 12 lines (rule findings are
single-line), contains the anchor line, and the request sent to the
transport carries exactly the joined window as its snippet. -/
theorem llm_anchor_and_window (uri text key : List Char) (t : LlmTransport) :
    anchorOf (runStaticRules text) =
      ((runStaticRules text).filter qualifiesForLlm).head? ∧
    (anchorOf (runStaticRules text) = none →
      runLlmPass t uri text (runStaticRules text) key = []) ∧
    ∀ a, anchorOf (runStaticRules text) = some a →
      a.range.startLine - 6 ≤ a.range.startLine ∧
      a.range.startLine < min (splitLines text).length (a.range.endLine + 6) ∧
      min (splitLines text).length (a.range.endLine + 6) ≤
        (splitLines text).length ∧
      min (splitLines text).length (a.range.endLine + 6) -
          (a.range.startLine - 6) ≤ 12 ∧
      runLlmPass t uri text (runStaticRules text) key =
        llmDispatch
          (t { uri := uri,
               snippet := llmSnippet (splitLines text) (a.range.startLine - 6)
                 (min (splitLines text).length (a.range.endLine + 6)),
               apiKey := key })
          (a.range.startLine - 6)
          (min (splitLines text).length (a.range.endLine + 6))
          ((((splitLines text).get?
              (min (splitLines text).length (a.range.endLine + 6) - 1)).map
            List.length).getD 0) := by
  refine ⟨find?_eq_head?_filter _ _, fun h => ?_, fun a ha => ?_⟩
  · simp only [runLlmPass, h]
  · have hm : a ∈ runStaticRules text := List.mem_of_find?_eq_some ha
    obtain ⟨he, hlt, -⟩ := runStaticRules_mem hm
    refine ⟨Nat.sub_le _ _, ?_, Nat.min_le_left _ _, ?_, ?_⟩
    · rw [he]
      exact lt_min hlt (by omega)
    · rw [he]
      omega
    · simp only [runLlmPass, ha]

set_option maxRecDepth 20000 in
/-- Witness for C6: a text with no qualifying finding gives an empty
augmentation; the `iterrows` text anchors on its finding with a window of at
most 12 lines. -/
theorem llm_anchor_and_window_witness :
    (anchorOf (runStaticRules c6TextA) = none ∧
      runLlmPass emptyTransport wUri c6TextA (runStaticRules c6TextA) wKey = []) ∧
    (anchorOf (runStaticRules c6TextB) = some iterrowsFinding ∧
      min (splitLines c6TextB).length (iterrowsFinding.range.endLine + 6) -
          (iterrowsFinding.range.startLine - 6) ≤ 12) :=
  ⟨⟨by decide,
      (llm_anchor_and_window wUri c6TextA wKey emptyTransport).2.1 (by decide)⟩,
    ⟨by decide,
      ((llm_anchor_and_window wUri c6TextB wKey emptyTransport).2.2
        iterrowsFinding (by decide)).2.2.2.1⟩⟩

/-- Claim C8: every rule finding has confidence high or medium (never low),
needsContext holds exactly for the medium ones, and therefore the
augmentation gate (some finding low or needing context) coincides with
testing needsContext alone. -/
theorem rule_confidence_invariant (text : List Char) :
    (∀ f ∈ runStaticRules text,
      (f.confidence = FindingConfidence.high ∨
          f.confidence = FindingConfidence.medium) ∧
        (f.needsContext = true ↔ f.confidence = FindingConfidence.medium)) ∧
    (runStaticRules text).any
        (fun f => decide (f.confidence = FindingConfidence.low) ||
          f.needsContext) =
      (runStaticRules text).any (fun f => f.needsContext) := by
  constructor
  · intro f hf
    obtain ⟨-, -, h⟩ := runStaticRules_mem hf
    rcases h with ⟨h1, h2⟩ | ⟨h1, h2⟩
    · exact ⟨Or.inl h1, by simp [h1, h2]⟩
    · exact ⟨Or.inr h1, by simp [h1, h2]⟩
  · refine any_eq_of_mem ?_
    intro f hf
    obtain ⟨-, -, h⟩ := runStaticRules_mem hf
    rcases h with ⟨h1, h2⟩ | ⟨h1, h2⟩ <;> simp [h1, h2]

set_option maxRecDepth 20000 in
/-- Witness for C8: the concrete concat finding of the C5 scenario satisfies
the confidence/needsContext invariant. -/
theorem rule_confidence_invariant_witness :
    c5Expected ∈ runStaticRules c5Text ∧
    ((c5Expected.confidence = FindingConfidence.high ∨
        c5Expected.confidence = FindingConfidence.medium) ∧
      (c5Expected.needsContext = true ↔
        c5Expected.confidence = FindingConfidence.medium)) :=
  ⟨by decide, (rule_confidence_invariant c5Text).1 c5Expected (by decide)⟩
